import Mathlib

/-!
Verification of the argument-generation and command-templating pipeline of
the `parallel` tool (src/arguments/mod.rs), as a shallow embedding in Lean.

Strings are modelled through their character lists (`String.data`); the
character-level workers (`quoteGo`, `shellquoteGo`, ...) mirror the source's
`for character in command.chars()` loops.
-/

namespace Parallel

/-! ## Command quoting transforms (src/arguments/mod.rs, lines 312-341) -/

/-- Character-level worker of `quote_command`: the source iterates over the
characters of the command and pushes an extra backslash before every
backslash character, copying every other character unchanged. -/
def quoteGo : List Char → List Char
  | [] => []
  | c :: cs => if c = '\\' then '\\' :: c :: quoteGo cs else c :: quoteGo cs

/-- Embedding of `fn quote_command(command: String) -> String`
(src/arguments/mod.rs lines 312-324). -/
def quote_command (command : String) : String :=
  String.mk (quoteGo command.data)

/-- The shell metacharacter set matched by `shellquote_command`'s second
match arm (src/arguments/mod.rs lines 334-335): dollar, space, backslash,
greater-than, less-than, caret, ampersand, hash, bang, star, single quote,
double quote, backtick, tilde, the two curly braces, the two square
brackets, the two parentheses, semicolon, pipe, question mark.
(Characters that would upset surrounding tooling are given by code point.) -/
def shellMetachars : List Char :=
  ['$', ' ', '\\', '>', '<', '^', '&', '#', '!', '*', Char.ofNat 39,
   Char.ofNat 34, Char.ofNat 96, '~', Char.ofNat 123, Char.ofNat 125,
   '[', ']', '(', ')', ';', '|', '?']

/-- Character-level worker of `shellquote_command`: `found` is the source's
`command_found` flag. A space while `command_found` is still false only
sets the flag (first match arm, guarded by `!command_found`); any
metacharacter otherwise gets a backslash pushed before it; the character
itself is always pushed. -/
def shellquoteGo : Bool → List Char → List Char
  | _, [] => []
  | found, c :: cs =>
    if c = ' ' ∧ found = false then
      c :: shellquoteGo true cs
    else if c ∈ shellMetachars then
      '\\' :: c :: shellquoteGo found cs
    else
      c :: shellquoteGo found cs

/-- Embedding of `fn shellquote_command(command: String) -> String`
(src/arguments/mod.rs lines 326-341); `command_found` starts false. -/
def shellquote_command (command : String) : String :=
  String.mk (shellquoteGo false command.data)

/-- Embedding of the quoting dispatch at src/arguments/mod.rs line 300:
`if shellquote { comm = shellquote_command(comm); }
 else if quote { comm = quote_command(comm); }`. -/
def applyQuoting (quote shellquote : Bool) (comm : String) : String :=
  if shellquote then shellquote_command comm
  else if quote then quote_command comm
  else comm

/-- Restatement of the spec's words for `quote_command`: double every
backslash, leave all other characters unchanged (expressed as a flat map
over the characters, independent of the source's accumulator loop). -/
def doubleBackslashes (cs : List Char) : List Char :=
  cs.flatMap (fun c => if c = '\\' then ['\\', '\\'] else [c])

/-- Restatement of the spec's words for the escaping applied after the
binary/argument boundary: every occurrence of a shell metacharacter
(space included) is escaped with a preceding backslash. -/
def escapeAllMeta : List Char → List Char
  | [] => []
  | c :: cs =>
    if c ∈ shellMetachars then '\\' :: c :: escapeAllMeta cs
    else c :: escapeAllMeta cs

lemma quoteGo_eq_doubleBackslashes (cs : List Char) :
    quoteGo cs = doubleBackslashes cs := by
  induction cs with
  | nil => rfl
  | cons c cs ih =>
    by_cases h : c = '\\' <;>
      simp [quoteGo, doubleBackslashes, h, ih]

lemma shellquoteGo_true_eq_escapeAllMeta (cs : List Char) :
    shellquoteGo true cs = escapeAllMeta cs := by
  induction cs with
  | nil => rfl
  | cons c cs ih =>
    by_cases h : c ∈ shellMetachars <;>
      simp [shellquoteGo, escapeAllMeta, h, ih]

/-- C7: `quote_command` doubles every backslash and leaves every other
character unchanged, and it is not idempotent: on a string holding one
backslash, applying it twice yields four backslashes at that position. -/
theorem quote_command_doubles_and_not_idempotent :
    (∀ s : String, quote_command s = String.mk (doubleBackslashes s.data)) ∧
    quote_command "a\\b" = "a\\\\b" ∧
    quote_command (quote_command "a\\b") = "a\\\\\\\\b" ∧
    quote_command (quote_command "a\\b") ≠ quote_command "a\\b" := by
  refine ⟨fun s => ?_, by decide, by decide, by decide⟩
  simp [quote_command, quoteGo_eq_doubleBackslashes]

/-- C6: `shellquote_command` on `cmd a&b` escapes the ampersand but not the
separating space; in general, the first space of the template is consumed as
the binary/argument boundary and is not escaped, while every later
occurrence of a shell metacharacter (later spaces included) is escaped with
a preceding backslash. -/
theorem shellquote_command_boundary (pre post : List Char)
    (hpre : ∀ c ∈ pre, c ≠ ' ') :
    shellquoteGo false (pre ++ ' ' :: post) =
      escapeAllMeta pre ++ ' ' :: escapeAllMeta post := by
  induction pre with
  | nil =>
    simp [shellquoteGo, shellquoteGo_true_eq_escapeAllMeta, escapeAllMeta]
  | cons c cs ih =>
    have hcs : c ≠ ' ' := hpre c (by simp)
    have ih2 := ih (fun d hd => hpre d (by simp [hd]))
    by_cases hc : c ∈ shellMetachars
    · simp only [List.cons_append, shellquoteGo, escapeAllMeta]
      rw [if_neg (by simp [hcs]), if_pos hc, if_pos hc]
      exact congrArg (fun l => '\\' :: c :: l) ih2
    · simp only [List.cons_append, shellquoteGo, escapeAllMeta]
      rw [if_neg (by simp [hcs]), if_neg hc, if_neg hc]
      exact congrArg (c :: ·) ih2

/-- Witness for C6 at the spec's concrete example: the prefix `cmd` holds no
metacharacter, the boundary space is left alone, and the ampersand after it
is escaped, so `shellquote_command "cmd a&b" = "cmd a\&b"`. -/
theorem shellquote_command_boundary_witness :
    shellquoteGo false ("cmd".data ++ ' ' :: "a&b".data) =
        escapeAllMeta "cmd".data ++ ' ' :: escapeAllMeta "a&b".data ∧
      shellquote_command "cmd a&b" = "cmd a\\&b" :=
  ⟨shellquote_command_boundary "cmd".data "a&b".data (by decide), by decide⟩

/-- C2 counterexample: when both `quote` and `shellquote` are requested, the
transform the code applies (src/arguments/mod.rs line 300 checks
`shellquote` first) is not the quote transform: on the template `cmd a&b`
the applied transform escapes the ampersand, while `quote_command` would
leave the string unchanged. -/
theorem applyQuoting_both_is_not_quote :
    applyQuoting true true "cmd a&b" ≠ quote_command "cmd a&b" := by
  decide

/-- C2 amended: when both flags are requested only one transform is applied
and it is the shellquote transform (shellquote takes precedence over
quote); quote alone still selects the quote transform. -/
theorem applyQuoting_shellquote_precedence :
    ∀ (q : Bool) (comm : String),
      applyQuoting q true comm = shellquote_command comm ∧
        applyQuoting true false comm = quote_command comm :=
  fun _ _ => ⟨rfl, rfl⟩

/-! ## List Combinator (src/arguments/mod.rs, lines 243-279) -/

/-- Helper of `permutations`: prepend each element of `l` in turn to every
tuple of `ps`, keeping the order of `ps` within each block. -/
def prependEach (l : List String) (ps : List (List String)) : List (List String) :=
  match l with
  | [] => []
  | x :: xs => ps.map (x :: ·) ++ prependEach xs ps

/-- Modelled from the spec: the cartesian-product iterator used at
src/arguments/mod.rs lines 255-270 is `Permutator` from the external
`permutate` crate, whose source is not in this repository. The spec fixes
its enumeration order: odometer order, the last list being the
fastest-varying digit, each tuple taking one value from each list in list
order. -/
def permutations : List (List String) → List (List String)
  | [] => [[]]
  | l :: ls => prependEach l (permutations ls)

/-- Embedding of the per-permutation write sequence at src/arguments/mod.rs
lines 257-268: the first element is written, then every further element is
preceded by a single space. -/
def spaceJoin : List String → String
  | [] => ""
  | x :: xs => xs.foldl (fun acc e => acc ++ " " ++ e) x

/-- Embedding of the generation dispatch at src/arguments/mod.rs lines
245-279: with more than one (finalized) list, the space-joined cartesian
product is emitted; otherwise the trailing `current_inputs` values are
emitted one per record. -/
def genRecords (lists : List (List String)) (current : List String) : List String :=
  if lists.length > 1 then (permutations lists).map spaceJoin else current

/-- Restatement of the spec's words for odometer enumeration: the tuple at
index `i` takes from each list the digit obtained by mixed-radix
decomposition of `i`, the last list being the fastest-varying digit. -/
def odometerTuple : List (List String) → Nat → List String
  | [], _ => []
  | l :: ls, i =>
    l.getD (i / (ls.map List.length).prod) "" ::
      odometerTuple ls (i % (ls.map List.length).prod)

lemma prependEach_length (l : List String) (ps : List (List String)) :
    (prependEach l ps).length = l.length * ps.length := by
  induction l with
  | nil => simp [prependEach]
  | cons x xs ih => simp [prependEach, ih, Nat.succ_mul, Nat.add_comm]

lemma permutations_length (ls : List (List String)) :
    (permutations ls).length = (ls.map List.length).prod := by
  induction ls with
  | nil => rfl
  | cons l ls ih => simp [permutations, prependEach_length, ih]

lemma prependEach_getElem? (l : List String) (ps : List (List String))
    (i : Nat) (h : i < l.length * ps.length) :
    (prependEach l ps)[i]? =
      (ps[i % ps.length]?).map (l.getD (i / ps.length) "" :: ·) := by
  induction l generalizing i with
  | nil => simp at h
  | cons x xs ih =>
    have hw : 0 < ps.length := by
      rcases Nat.eq_zero_or_pos ps.length with h0 | h0
      · rw [h0, Nat.mul_zero] at h
        exact absurd h (Nat.not_lt_zero i)
      · exact h0
    by_cases hi : i < ps.length
    · rw [prependEach, List.getElem?_append_left (by simpa using hi),
        List.getElem?_map, Nat.div_eq_of_lt hi, Nat.mod_eq_of_lt hi]
      rfl
    · push_neg at hi
      have hsucc : (xs.length + 1) * ps.length = xs.length * ps.length + ps.length :=
        Nat.succ_mul xs.length ps.length
      have hlt : i - ps.length < xs.length * ps.length := by
        simp only [List.length_cons] at h
        omega
      rw [prependEach, List.getElem?_append_right (by simpa using hi),
        List.length_map, ih (i - ps.length) hlt,
        Nat.div_eq_sub_div hw hi, Nat.mod_eq_sub_mod hi]
      rfl

lemma permutations_getElem? (ls : List (List String)) (i : Nat)
    (h : i < (ls.map List.length).prod) :
    (permutations ls)[i]? = some (odometerTuple ls i) := by
  induction ls generalizing i with
  | nil =>
    simp only [List.map_nil, List.prod_nil, Nat.lt_one_iff] at h
    subst h
    rfl
  | cons l ls ih =>
    simp only [List.map_cons, List.prod_cons] at h
    have hw : 0 < (ls.map List.length).prod := by
      rcases Nat.eq_zero_or_pos (ls.map List.length).prod with h0 | h0
      · rw [h0, Nat.mul_zero] at h
        exact absurd h (Nat.not_lt_zero i)
      · exact h0
    have h' : i < l.length * (permutations ls).length := by
      rw [permutations_length]
      exact h
    rw [permutations, prependEach_getElem? l (permutations ls) i h',
      permutations_length,
      ih (i % (ls.map List.length).prod) (Nat.mod_lt i hw)]
    rfl

/-- C1: with k ≥ 2 input lists, the generation step emits exactly the
product of the list sizes many records, the record at index i being the
space-joined odometer tuple of i (last list fastest-varying, one value
from each list in list order). -/
theorem genRecords_odometer_product (lists : List (List String))
    (current : List String) (h : 2 ≤ lists.length) :
    (genRecords lists current).length = (lists.map List.length).prod ∧
      ∀ i, i < (lists.map List.length).prod →
        (genRecords lists current)[i]? = some (spaceJoin (odometerTuple lists i)) := by
  have hlen : lists.length > 1 := h
  constructor
  · simp [genRecords, if_pos hlen, permutations_length]
  · intro i hi
    rw [genRecords, if_pos hlen, List.getElem?_map, permutations_getElem? lists i hi]
    rfl

/-- Witness for C1 at the spec's concrete example: lists `[a,b]` and
`[1,2,3]` yield six records, in order `a 1`, `a 2`, `a 3`, `b 1`, `b 2`,
`b 3`. -/
theorem genRecords_odometer_product_witness :
    ((genRecords [["a", "b"], ["1", "2", "3"]] []).length =
        ([["a", "b"], ["1", "2", "3"]].map List.length).prod ∧
      ∀ i, i < ([["a", "b"], ["1", "2", "3"]].map List.length).prod →
        (genRecords [["a", "b"], ["1", "2", "3"]] [])[i]? =
          some (spaceJoin (odometerTuple [["a", "b"], ["1", "2", "3"]] i))) ∧
      genRecords [["a", "b"], ["1", "2", "3"]] [] =
        ["a 1", "a 2", "a 3", "b 1", "b 2", "b 3"] :=
  ⟨genRecords_odometer_product [["a", "b"], ["1", "2", "3"]] [] (by decide),
    by decide⟩

/-! ## Command-line grammar parser (src/arguments/mod.rs, lines 24-46 and 69-241) -/

/-- Embedding of `enum Mode { Arguments, Command, Inputs, Files }`. -/
inductive Mode where
  | Arguments
  | Command
  | Inputs
  | Files
deriving DecidableEq, Repr

/-- Embedding of `struct Flags` (src/arguments/mod.rs lines 28-34). -/
structure Flags where
  inputs_are_commands : Bool
  pipe : Bool
  uses_shell : Bool
  quiet : Bool
  verbose : Bool
deriving DecidableEq, Repr

/-- Embedding of `Flags::new` (src/arguments/mod.rs lines 37-45). -/
def Flags.new : Flags where
  inputs_are_commands := false
  uses_shell := true
  quiet := false
  verbose := false
  pipe := false

/-- The mutable state of the parsing loop in `Args::parse`: the current
`mode`, the flags and core count of `self`, the local `quote`/`shellquote`
booleans, the accumulated command string `comm`, the closed `lists`, and
the open `current_inputs` list. -/
structure ParseState where
  mode : Mode
  flags : Flags
  ncores : Nat
  quote : Bool
  shellquote : Bool
  comm : String
  lists : List (List String)
  current_inputs : List String
deriving DecidableEq, Repr

/-- Embedding of the grammar-error variants of `ParseErr` raised in the
parsing loop (I/O causes are dropped; a file error keeps its path). -/
inductive ParseErr where
  | NoArguments
  | JobsNoValue
  | JobParse (token : String)
  | InvalidArgument (token : String)
  | FileOpen (path : String)
deriving DecidableEq, Repr

/-- Outcome of the parsing loop: a final state, an error, an immediate
`exit(0)` from an informational option, or a panic (the source unwraps the
first character of every token in Arguments mode, which panics on an empty
token). -/
inductive ParseResult where
  | ok (s : ParseState)
  | err (e : ParseErr)
  | exitOk
  | panicked
deriving DecidableEq, Repr

/-- Decimal reading of a non-empty all-digit character list, as
`usize::from_str` accepts it; any other input is rejected. -/
def digitsToNatAux : Nat → List Char → Option Nat
  | acc, [] => some acc
  | acc, c :: cs =>
    if c.isDigit then digitsToNatAux (acc * 10 + (c.toNat - 48)) cs else none

def digitsToNat : List Char → Option Nat
  | [] => none
  | cs => digitsToNatAux 0 cs

/-- Modelled from the spec: `jobs::parse` lives in the `jobs` module, which
is not in the source tree. Per the spec a job-count token must be either a
bare integer (exact core count) or an integer followed by a percent sign
(percentage of the detected core count, rounded, with a minimum of 1);
rounding of `cores * p / 100` is to the nearest integer, halves away from
zero. -/
def jobsParse (cores : Nat) (token : String) : Option Nat :=
  match token.data.getLast? with
  | none => none
  | some c =>
    if c = '%' then
      (digitsToNat token.data.dropLast).map
        (fun p => max 1 ((cores * p + 50) / 100))
    else
      digitsToNat token.data

/-- Embedding of the short-option loop at src/arguments/mod.rs lines
126-141: each character of `argument[1..]` is matched independently; `h`
prints the man page and exits, `n`/`p`/`q`/`s`/`v` set their flag, and any
other character (a `j` not in first position included) is an invalid
argument. -/
inductive ShortOut where
  | ok (s : ParseState)
  | exitOk
  | invalid
deriving DecidableEq, Repr

def applyShort (s : ParseState) : List Char → ShortOut
  | [] => .ok s
  | c :: cs =>
    if c = 'h' then .exitOk
    else if c = 'n' then applyShort { s with flags := { s.flags with uses_shell := false } } cs
    else if c = 'p' then applyShort { s with flags := { s.flags with pipe := true } } cs
    else if c = 'q' then applyShort { s with quote := true } cs
    else if c = 's' then applyShort { s with flags := { s.flags with quiet := true } } cs
    else if c = 'v' then applyShort { s with flags := { s.flags with verbose := true } } cs
    else .invalid

/-- Outcome of handling one token of the parsing loop: continue with an
updated state, consume the next whole argument as the job-count value
(`-j` with nothing after the `j`, and `--jobs`), fail, exit, or panic. -/
inductive StepOut where
  | cont (s : ParseState)
  | needsJobsValue
  | err (e : ParseErr)
  | exitOk
  | panicked
deriving DecidableEq, Repr

/-- Embedding of the body of the `while let Some(argument) = raw_args.next()`
loop of `Args::parse` (src/arguments/mod.rs lines 99-237) for one token.
`fs` models the file system for Files mode (`file_parse` yields the
decodable lines of the file, or fails to open it); `cores` is the detected
core count consulted by `jobs::parse`. The two places where the source
pulls the next whole argument from the iterator are reported as
`needsJobsValue`; the first-character unwrap of an empty token in
Arguments mode is the panic case. -/
def parseStep (fs : String → Option (List String)) (cores : Nat)
    (s : ParseState) (arg : String) : StepOut :=
  match s.mode with
  | Mode.Arguments =>
    match arg.data with
    | [] => StepOut.panicked
    | c :: cs =>
      if c = '-' then
        match cs with
        | [] => .err (.InvalidArgument "-")
        | c2 :: cs2 =>
          if c2 = 'j' then
            if cs2 = [] then .needsJobsValue
            else
              match jobsParse cores (String.mk cs2) with
              | some n => .cont { s with ncores := n }
              | none => .err (.JobParse (String.mk cs2))
          else if c2 = '-' then
            if String.mk cs2 = "help" then .exitOk
            else if String.mk cs2 = "jobs" then .needsJobsValue
            else if String.mk cs2 = "no-shell" then
              .cont { s with flags := { s.flags with uses_shell := false } }
            else if String.mk cs2 = "num-cpu-cores" then .exitOk
            else if String.mk cs2 = "pipe" then
              .cont { s with flags := { s.flags with pipe := true } }
            else if String.mk cs2 = "quiet" ∨ String.mk cs2 = "silent" then
              .cont { s with flags := { s.flags with quiet := true } }
            else if String.mk cs2 = "quote" then .cont { s with quote := true }
            else if String.mk cs2 = "shellquote" then .cont { s with shellquote := true }
            else if String.mk cs2 = "verbose" then
              .cont { s with flags := { s.flags with verbose := true } }
            else if String.mk cs2 = "version" then .exitOk
            else .err (.InvalidArgument arg)
          else
            match applyShort s (c2 :: cs2) with
            | .ok s2 => .cont s2
            | .exitOk => .exitOk
            | .invalid => .err (.InvalidArgument arg)
      else
        if arg = ":::" then
          .cont { s with mode := Mode.Inputs,
                         flags := { s.flags with inputs_are_commands := true } }
        else if arg = "::::" then
          .cont { s with mode := Mode.Files,
                         flags := { s.flags with inputs_are_commands := true } }
        else
          .cont { s with mode := Mode.Command, comm := s.comm ++ arg }
  | Mode.Command =>
    if arg = ":::" ∨ arg = ":::+" then .cont { s with mode := Mode.Inputs }
    else if arg = "::::" ∨ arg = "::::+" then .cont { s with mode := Mode.Files }
    else .cont { s with comm := s.comm ++ " " ++ arg }
  | Mode.Inputs =>
    if arg = ":::" then
      .cont (if s.current_inputs = [] then { s with mode := Mode.Inputs }
             else { s with mode := Mode.Inputs,
                           lists := s.lists ++ [s.current_inputs],
                           current_inputs := [] })
    else if arg = ":::+" then .cont { s with mode := Mode.Inputs }
    else if arg = "::::" then
      .cont (if s.current_inputs = [] then { s with mode := Mode.Files }
             else { s with mode := Mode.Files,
                           lists := s.lists ++ [s.current_inputs],
                           current_inputs := [] })
    else if arg = "::::+" then .cont { s with mode := Mode.Files }
    else .cont { s with current_inputs := s.current_inputs ++ [arg] }
  | Mode.Files =>
    if arg = ":::" then
      .cont (if s.current_inputs = [] then { s with mode := Mode.Inputs }
             else { s with mode := Mode.Inputs,
                           lists := s.lists ++ [s.current_inputs],
                           current_inputs := [] })
    else if arg = ":::+" then .cont { s with mode := Mode.Inputs }
    else if arg = "::::" then
      .cont (if s.current_inputs = [] then { s with mode := Mode.Files }
             else { s with mode := Mode.Files,
                           lists := s.lists ++ [s.current_inputs],
                           current_inputs := [] })
    else if arg = "::::+" then .cont { s with mode := Mode.Files }
    else
      match fs arg with
      | some lines => .cont { s with current_inputs := s.current_inputs ++ lines }
      | none => .err (.FileOpen arg)

/-- The full parsing loop: tokens are handled one at a time by `parseStep`;
when a token requires the job-count value, the next whole argument is
consumed (`raw_args.next().ok_or(ParseErr::JobsNoValue)` followed by
`jobs::parse`). -/
def parseLoop (fs : String → Option (List String)) (cores : Nat) :
    ParseState → List String → ParseResult
  | s, [] => .ok s
  | s, [arg] =>
    match parseStep fs cores s arg with
    | .cont s2 => .ok s2
    | .needsJobsValue => .err .JobsNoValue
    | .err e => .err e
    | .exitOk => .exitOk
    | .panicked => .panicked
  | s, arg :: v :: rest =>
    match parseStep fs cores s arg with
    | .cont s2 => parseLoop fs cores s2 (v :: rest)
    | .needsJobsValue =>
      match jobsParse cores v with
      | some n => parseLoop fs cores { s with ncores := n } rest
      | none => .err (.JobParse v)
    | .err e => .err e
    | .exitOk => .exitOk
    | .panicked => .panicked

/-- Embedding of the initial-mode peek at src/arguments/mod.rs lines 89-93:
only the exact tokens `:::` and `::::` select Inputs/Files mode. -/
def initMode (first : String) : Mode :=
  if first = ":::" then Mode.Inputs
  else if first = "::::" then Mode.Files
  else Mode.Arguments

/-- The parser state before the loop starts: flags from `Flags::new` with
`inputs_are_commands` set when the initial mode is Inputs or Files
(src/arguments/mod.rs line 96), core count from the detector, and empty
accumulators. -/
def initState (cores : Nat) (m : Mode) : ParseState where
  mode := m
  flags := { Flags.new with inputs_are_commands := m == Mode.Inputs || m == Mode.Files }
  ncores := cores
  quote := false
  shellquote := false
  comm := ""
  lists := []
  current_inputs := []

/-- Embedding of the argument-parsing phase of `Args::parse`: an empty
argument vector is a `NoArguments` error; otherwise the initial mode is
peeked from the first token and the loop consumes every token. -/
def argsParse (fs : String → Option (List String)) (cores : Nat)
    (args : List String) : ParseResult :=
  match args with
  | [] => .err .NoArguments
  | first :: _ => parseLoop fs cores (initState cores (initMode first)) args

/-- Embedding of the finalization at src/arguments/mod.rs lines 239-241:
a non-empty trailing `current_inputs` is pushed onto `lists`. -/
def finalizeLists (s : ParseState) : List (List String) :=
  if s.current_inputs ≠ [] then s.lists ++ [s.current_inputs] else s.lists

/-- Modelled from the spec: the disk buffer (module `disk_buffer`, not in
the source tree) appends written bytes in order, without loss or
reordering, and `is_empty` reports whether zero bytes have ever been
queued. `recordBytes` is the byte stream the record-writing loops of
`Args::parse` hand to the buffer: each record's bytes followed by one
newline byte. -/
def recordBytes : List String → List Char
  | [] => []
  | r :: rs => r.data ++ '\n' :: recordBytes rs

/-- Embedding of the stdin fallback at src/arguments/mod.rs lines 282-293:
if the buffer is empty after the list-combination step, every decodable
stdin line becomes one further record. -/
def finalRecords (lists : List (List String)) (current : List String)
    (stdin : List String) : List String :=
  let g := genRecords lists current
  if recordBytes g = [] then g ++ stdin else g

/-- The running `number_of_arguments` counter of `Args::parse`: it is
incremented exactly once per record written, so its final value is the
record count. -/
def numberOfArguments (lists : List (List String)) (current : List String)
    (stdin : List String) : Nat :=
  (finalRecords lists current stdin).length

/-- The final parser state of a successful run. -/
def parseOk (fs : String → Option (List String)) (cores : Nat)
    (args : List String) : Option ParseState :=
  match argsParse fs cores args with
  | .ok s => some s
  | _ => none

/-- The record stream a successful run writes to the backing file. -/
def streamOf (s : ParseState) (stdin : List String) : List String :=
  finalRecords (finalizeLists s) s.current_inputs stdin

/-- A file system with no readable files, for concrete runs that never
enter Files mode. -/
def fsNone : String → Option (List String) := fun _ => none

/-! ## Mode-transition invariant (C9) -/

/-- Progress rank of a parse mode: Arguments before Command before the two
input modes; Inputs and Files share a rank since the parser moves freely
between them. -/
def modeRank : Mode → Nat
  | Mode.Arguments => 0
  | Mode.Command => 1
  | Mode.Inputs => 2
  | Mode.Files => 2

lemma parseStep_mode (fs : String → Option (List String)) (cores : Nat)
    (s : ParseState) (arg : String) (s2 : ParseState)
    (h : parseStep fs cores s arg = StepOut.cont s2) :
    modeRank s.mode ≤ modeRank s2.mode ∧
      (s2.mode = Mode.Arguments → s.mode = Mode.Arguments) := by
  cases hmode : s.mode
  case Arguments => exact ⟨Nat.zero_le _, fun _ => rfl⟩
  all_goals
    simp only [parseStep, hmode] at h
    repeat' split at h
    all_goals try exact StepOut.noConfusion h
    all_goals
      injection h with h
      subst h
      exact ⟨Nat.le_of_ble_eq_true rfl, fun he => Mode.noConfusion he⟩

lemma parseStep_needsJobs_only_in_arguments (fs : String → Option (List String))
    (cores : Nat) (s : ParseState) (arg : String)
    (hm : s.mode ≠ Mode.Arguments) :
    parseStep fs cores s arg ≠ StepOut.needsJobsValue := by
  cases hmode : s.mode
  case Arguments => exact absurd hmode hm
  all_goals
    simp only [parseStep, hmode]
    repeat' split
    all_goals exact fun he => StepOut.noConfusion he

/-- C9: over every token sequence, the parsing loop's mode only advances in
rank (Arguments, then Command, then Inputs/Files, which interchange); in
particular, once the mode has left Arguments it never returns to
Arguments. -/
theorem parseLoop_mode_monotone (fs : String → Option (List String))
    (cores : Nat) :
    ∀ (args : List String) (s s' : ParseState),
      parseLoop fs cores s args = ParseResult.ok s' →
      modeRank s.mode ≤ modeRank s'.mode ∧
        (s'.mode = Mode.Arguments → s.mode = Mode.Arguments) := by
  intro args
  induction args with
  | nil =>
    intro s s' h
    simp only [parseLoop] at h
    injection h with h
    subst h
    exact ⟨Nat.le_refl _, fun h2 => h2⟩
  | cons arg t ih =>
    intro s s' h
    by_cases hm : s.mode = Mode.Arguments
    · exact ⟨by rw [hm]; exact Nat.zero_le _, fun _ => hm⟩
    · cases t with
      | nil =>
        simp only [parseLoop] at h
        split at h
        all_goals try exact ParseResult.noConfusion h
        case _ s2 heq =>
          injection h with h
          subst h
          exact parseStep_mode fs cores s arg _ heq
      | cons v rest =>
        simp only [parseLoop] at h
        split at h
        case _ s2 heq =>
          obtain ⟨a1, a2⟩ := parseStep_mode fs cores s arg s2 heq
          obtain ⟨b1, b2⟩ := ih _ _ h
          exact ⟨Nat.le_trans a1 b1, fun he => a2 (b2 he)⟩
        case _ heq =>
          exact absurd heq (parseStep_needsJobs_only_in_arguments fs cores s arg hm)
        all_goals exact ParseResult.noConfusion h

/-- Witness for C9 on a concrete run: the single token `echo` moves the
mode from Arguments to Command, so the rank does not decrease. -/
theorem parseLoop_mode_monotone_witness :
    modeRank (initState 1 Mode.Arguments).mode ≤
        modeRank ({ initState 1 Mode.Arguments with
          mode := Mode.Command, comm := "echo" } : ParseState).mode ∧
      (({ initState 1 Mode.Arguments with
            mode := Mode.Command, comm := "echo" } : ParseState).mode = Mode.Arguments →
        (initState 1 Mode.Arguments).mode = Mode.Arguments) :=
  parseLoop_mode_monotone fsNone 1 ["echo"] (initState 1 Mode.Arguments)
    { initState 1 Mode.Arguments with mode := Mode.Command, comm := "echo" }
    (by decide)

/-! ## Leading same-list separator (C10) -/

/-- C10: a leading `:::+` (or `::::+`) is not recognized by the
initial-mode peek (which matches only the exact tokens `:::` and `::::`),
so the parser starts in Arguments mode, and since neither token begins
with a dash it becomes the first token of the command template, switching
the mode to Command. -/
theorem leading_sameList_separator_to_command
    (fs : String → Option (List String)) (cores : Nat) (ts : List String) :
    (initMode ":::+" = Mode.Arguments ∧ initMode "::::+" = Mode.Arguments) ∧
      argsParse fs cores (":::+" :: ts) =
        parseLoop fs cores
          { initState cores Mode.Arguments with
            mode := Mode.Command, comm := ":::+" } ts ∧
      argsParse fs cores ("::::+" :: ts) =
        parseLoop fs cores
          { initState cores Mode.Arguments with
            mode := Mode.Command, comm := "::::+" } ts := by
  refine ⟨⟨by decide, by decide⟩, ?_, ?_⟩ <;> cases ts <;> rfl

/-! ## Single-list pass-through (C3) -/

lemma recordBytes_cons_ne_nil (r : String) (rs : List String) :
    recordBytes (r :: rs) ≠ [] := by
  simp [recordBytes]

lemma recordBytes_eq_nil_iff (rs : List String) :
    recordBytes rs = [] ↔ rs = [] := by
  cases rs with
  | nil => simp [recordBytes]
  | cons r rs => simp [recordBytes]

/-- The flag characters a short option block accepts without terminating
the process, and their effects (spec-side restatement of the short-option
table: `n` no-shell, `p` pipe, `q` quote, `s` quiet, `v` verbose). -/
def flagChars : List Char := ['n', 'p', 'q', 's', 'v']

def applyFlagChar (s : ParseState) (c : Char) : ParseState :=
  if c = 'n' then { s with flags := { s.flags with uses_shell := false } }
  else if c = 'p' then { s with flags := { s.flags with pipe := true } }
  else if c = 'q' then { s with quote := true }
  else if c = 's' then { s with flags := { s.flags with quiet := true } }
  else if c = 'v' then { s with flags := { s.flags with verbose := true } }
  else s

lemma applyShort_flags :
    ∀ (cs : List Char) (s : ParseState), (∀ c ∈ cs, c ∈ flagChars) →
      applyShort s cs = ShortOut.ok (cs.foldl applyFlagChar s) := by
  intro cs
  induction cs with
  | nil => intro s _; rfl
  | cons c cs ih =>
    intro s hmem
    have hc := hmem c (by simp)
    simp only [flagChars, List.mem_cons, List.not_mem_nil, or_false] at hc
    rcases hc with rfl | rfl | rfl | rfl | rfl <;>
      exact ih _ (fun d hd => hmem d (List.mem_cons_of_mem _ hd))

lemma applyShort_inner_j (suf : List Char) :
    ∀ (pre : List Char) (s : ParseState), pre ≠ [] →
      (∀ c ∈ pre, c ∈ flagChars) →
      applyShort s (pre ++ 'j' :: suf) = ShortOut.invalid := by
  intro pre
  induction pre with
  | nil => intro s hne _; exact absurd rfl hne
  | cons c pre ih =>
    intro s _ hmem
    have hc := hmem c (by simp)
    simp only [flagChars, List.mem_cons, List.not_mem_nil, or_false] at hc
    rcases hc with rfl | rfl | rfl | rfl | rfl <;>
      cases pre with
      | nil => rfl
      | cons d pre2 =>
        exact ih _ (by simp) (fun e he => hmem e (List.mem_cons_of_mem _ he))

lemma jobs_fifty_percent (cores : Nat) :
    (cores * 50 + 50) / 100 = (cores + 1) / 2 := by
  have h1 : cores * 50 + 50 = 50 * (cores + 1) := by ring
  have h2 : (100 : Nat) = 50 * 2 := rfl
  rw [h1, h2, Nat.mul_div_mul_left _ _ (by norm_num)]

/-- C5 counterexample: in the short block `-vj4` the `j` is not the first
character after the dash, so the code does not treat it as the jobs
option; the whole token is rejected as an invalid argument instead of
applying `v` as a flag and resolving the job count to 4. -/
theorem shortBlock_inner_j_rejected :
    argsParse fsNone 4 ["-vj4", "echo"] =
      ParseResult.err (ParseErr.InvalidArgument "-vj4") := by
  decide

/-- C5 amended: a short option block applies each character as an
independent flag, and `j` is special only when it immediately follows the
dash: then a non-empty remainder of the token is parsed as the job-count
value, and otherwise the next whole argument is; `-j4` and `-j 4` both
resolve to job count 4, and `-j50%` resolves to the rounded half of the
detected core count with a minimum of 1; a `j` anywhere later in a block
is rejected as an invalid argument. -/
theorem shortOption_jobs_amended :
    (∀ (fs : String → Option (List String)) (cores : Nat) (s : ParseState)
        (t : String) (ts : List String) (n : Nat),
        s.mode = Mode.Arguments → t.data ≠ [] → jobsParse cores t = some n →
        parseLoop fs cores s (("-j" ++ t) :: ts) =
          parseLoop fs cores { s with ncores := n } ts) ∧
    (∀ (fs : String → Option (List String)) (cores : Nat) (s : ParseState)
        (v : String) (ts : List String) (n : Nat),
        s.mode = Mode.Arguments → jobsParse cores v = some n →
        parseLoop fs cores s ("-j" :: v :: ts) =
          parseLoop fs cores { s with ncores := n } ts) ∧
    (∀ cores : Nat, jobsParse cores "4" = some 4 ∧
        jobsParse cores "50%" = some (max 1 ((cores + 1) / 2))) ∧
    (∀ (fs : String → Option (List String)) (cores : Nat) (s : ParseState)
        (c2 : Char) (cs2 : List Char) (ts : List String),
        s.mode = Mode.Arguments → (∀ c ∈ c2 :: cs2, c ∈ flagChars) →
        parseLoop fs cores s (String.mk ('-' :: c2 :: cs2) :: ts) =
          parseLoop fs cores ((c2 :: cs2).foldl applyFlagChar s) ts) ∧
    (∀ (fs : String → Option (List String)) (cores : Nat) (s : ParseState)
        (p0 : Char) (pre suf : List Char) (ts : List String),
        s.mode = Mode.Arguments → (∀ c ∈ p0 :: pre, c ∈ flagChars) →
        parseLoop fs cores s (String.mk ('-' :: p0 :: (pre ++ 'j' :: suf)) :: ts) =
          ParseResult.err (ParseErr.InvalidArgument
            (String.mk ('-' :: p0 :: (pre ++ 'j' :: suf))))) := by
  refine ⟨?_, ?_, ?_, ?_, ?_⟩
  · intro fs cores s t ts n hm ht hj
    obtain ⟨tc, tcs, hdata⟩ : ∃ a b, t.data = a :: b := by
      cases hd : t.data with
      | nil => exact absurd hd ht
      | cons a b => exact ⟨a, b, rfl⟩
    have hts : ("-j" ++ t).data = '-' :: 'j' :: tc :: tcs := by
      rw [String.data_append, hdata]
      rfl
    have hmk : String.mk (tc :: tcs) = t := by
      rw [← hdata]
    have hstep : parseStep fs cores s ("-j" ++ t) =
        StepOut.cont { s with ncores := n } := by
      simp only [parseStep, hm, hts, if_true]
      rw [hmk, hj]
      rfl
    cases ts <;> simp only [parseLoop, hstep]
  · intro fs cores s v ts n hm hj
    have hstep : parseStep fs cores s "-j" = StepOut.needsJobsValue := by
      simp only [parseStep, hm]
      rfl
    simp only [parseLoop, hstep, hj]
  · intro cores
    refine ⟨rfl, ?_⟩
    show some (max 1 ((cores * 50 + 50) / 100)) = _
    rw [jobs_fifty_percent]
  · intro fs cores s c2 cs2 ts hm hmem
    have h2 := hmem c2 (by simp)
    have hj2 : ¬(c2 = 'j') := by
      intro he
      subst he
      exact absurd h2 (by decide)
    have hd2 : ¬(c2 = '-') := by
      intro he
      subst he
      exact absurd h2 (by decide)
    have hstep : parseStep fs cores s (String.mk ('-' :: c2 :: cs2)) =
        StepOut.cont ((c2 :: cs2).foldl applyFlagChar s) := by
      have hdat : (String.mk ('-' :: c2 :: cs2)).data = '-' :: c2 :: cs2 := rfl
      simp only [parseStep, hm, hdat, if_true]
      rw [if_neg hj2, if_neg hd2, applyShort_flags (c2 :: cs2) s hmem]
    cases ts <;> simp only [parseLoop, hstep]
  · intro fs cores s p0 pre suf ts hm hmem
    have h2 := hmem p0 (by simp)
    have hj2 : ¬(p0 = 'j') := by
      intro he
      subst he
      exact absurd h2 (by decide)
    have hd2 : ¬(p0 = '-') := by
      intro he
      subst he
      exact absurd h2 (by decide)
    have hstep : parseStep fs cores s (String.mk ('-' :: p0 :: (pre ++ 'j' :: suf))) =
        StepOut.err (ParseErr.InvalidArgument
          (String.mk ('-' :: p0 :: (pre ++ 'j' :: suf)))) := by
      have hdat : (String.mk ('-' :: p0 :: (pre ++ 'j' :: suf))).data =
          '-' :: p0 :: (pre ++ 'j' :: suf) := rfl
      simp only [parseStep, hm, hdat, if_true]
      rw [if_neg hj2, if_neg hd2,
        show applyShort s (p0 :: (pre ++ 'j' :: suf)) = ShortOut.invalid from
          applyShort_inner_j suf (p0 :: pre) s (by simp) hmem]
    cases ts <;> simp only [parseLoop, hstep]

/-- Witness for C5 (amended) at concrete inputs: `-j4` and `-j 4` both set
the job count to 4, and `50%` with 3 detected cores resolves to
`max 1 (round 1.5) = 2`. -/
theorem shortOption_jobs_amended_witness :
    (parseLoop fsNone 7 (initState 7 Mode.Arguments) ["-j4"] =
        parseLoop fsNone 7 { initState 7 Mode.Arguments with ncores := 4 } []) ∧
      (parseLoop fsNone 7 (initState 7 Mode.Arguments) ["-j", "4"] =
        parseLoop fsNone 7 { initState 7 Mode.Arguments with ncores := 4 } []) ∧
      jobsParse 3 "50%" = some (max 1 ((3 + 1) / 2)) :=
  ⟨shortOption_jobs_amended.1 fsNone 7 (initState 7 Mode.Arguments) "4" [] 4
      rfl (by decide) rfl,
    shortOption_jobs_amended.2.1 fsNone 7 (initState 7 Mode.Arguments) "4" [] 4
      rfl rfl,
    (shortOption_jobs_amended.2.2.1 3).2⟩

/-! ## Standard-input fallback (C4) -/

/-- C4 counterexample: in the invocation `cmd ::: a :::` an input list
(holding `a`) is supplied and closed, yet the run still falls back to
standard input (here `x`,`y`,`z`): the fallback is keyed on the emptiness
of the written stream, not on whether lists were supplied at all. -/
theorem stdin_fallback_despite_supplied_list :
    (parseOk fsNone 4 ["cmd", ":::", "a", ":::"]).map
        (fun s => (s.lists, streamOf s ["x", "y", "z"])) =
      some ([["a"]], ["x", "y", "z"]) := by
  decide

/-- C4 amended: the standard-input fallback is taken exactly when the
stream is still empty after the list-combination step (the buffer is empty
iff no record was written), and in that case the stdin lines become the
records, in order; when a record was written, stdin is not consulted. -/
theorem stdin_fallback_iff_stream_empty (lists : List (List String))
    (current stdin : List String) :
    (recordBytes (genRecords lists current) = [] ↔
        genRecords lists current = []) ∧
      (genRecords lists current = [] →
        finalRecords lists current stdin = stdin) ∧
      (genRecords lists current ≠ [] →
        finalRecords lists current stdin = genRecords lists current) := by
  refine ⟨recordBytes_eq_nil_iff _, fun h => ?_, fun h => ?_⟩
  · simp [finalRecords, h, recordBytes]
  · have hne : recordBytes (genRecords lists current) ≠ [] :=
      fun hh => h ((recordBytes_eq_nil_iff _).mp hh)
    simp [finalRecords, hne]

/-- Witness for C4 (amended): with no lists and no inline values, stdin
lines `x`,`y`,`z` become exactly the three records, in order. -/
theorem stdin_fallback_iff_stream_empty_witness :
    finalRecords [] [] ["x", "y", "z"] = ["x", "y", "z"] :=
  (stdin_fallback_iff_stream_empty [] [] ["x", "y", "z"]).2.1 rfl

/-! ## Record count equals reported job count (C8) -/

lemma recordBytes_newline_count (rs : List String)
    (h : ∀ r ∈ rs, '\n' ∉ r.data) :
    (recordBytes rs).count '\n' = rs.length := by
  induction rs with
  | nil => rfl
  | cons r rs ih =>
    have h0 : r.data.count '\n' = 0 :=
      List.count_eq_zero.mpr (h r (by simp))
    simp [recordBytes, List.count_append, List.count_cons, h0,
      ih (fun u hu => h u (by simp [hu]))]

/-- C8: once flush completes, the backing file holds exactly
`number_of_arguments` newline-terminated records: the newline count of the
byte stream handed to the buffer equals the total job count reported to
the tokenizer and the input iterator (stated for records that do not
themselves contain a newline byte). -/
theorem record_count_matches_reported (lists : List (List String))
    (current stdin : List String)
    (h : ∀ r ∈ finalRecords lists current stdin, '\n' ∉ r.data) :
    (recordBytes (finalRecords lists current stdin)).count '\n' =
      numberOfArguments lists current stdin :=
  recordBytes_newline_count _ h

/-- Witness for C8 on a concrete run: two lists produce two records and the
file gains exactly two newline bytes. -/
theorem record_count_matches_reported_witness :
    (recordBytes (finalRecords [["a", "b"], ["1"]] ["z"] [])).count '\n' =
      numberOfArguments [["a", "b"], ["1"]] ["z"] [] :=
  record_count_matches_reported [["a", "b"], ["1"]] ["z"] [] (by decide)

end Parallel
